import Mathlib

/-!
# sip-mobile shielded-transfer core: verification development

Shallow embedding of the shielded-transfer protocol core of the sip-mobile
repository, with theorems checking the natural-language specification
against the code.

Conventions:
* bytes are modelled as `Nat` for the instruction/account codec (writes of
  multi-byte integers use explicit `% 256` per byte, mirroring the
  little-endian `writeUInt32LE` / `writeBigUInt64LE` Buffer methods) and as
  `Fin 256` for the hex encoding primitives;
* JS `Buffer.copy` into a pre-allocated zero buffer is modelled by
  `bufWrite`, which copies as much of the source as fits and leaves the
  rest of the target unchanged;
* JS strings are Lean `String`s processed through their character lists;
  `split(":")` is `splitColon`, regex tests are explicit character
  predicates;
* fallible operations return `Option` / `Except`; the `try/catch → null`
  pattern of `fetchConfig` is modelled by collapsing the thrown
  out-of-range Buffer reads into `none`;
* amounts that the client handles as JS floats are modelled as `ℚ`;
  `parseFloat` is modelled on plain decimal notation (the only notation the
  validated inputs use), parsing a greedy prefix and ignoring trailing text.
-/

set_option linter.unreachableTactic false
set_option linter.unnecessarySeqFocus false
set_option linter.unusedTactic false
set_option linter.unnecessarySimpa false

namespace SipMobile

/- ## Little-endian integer byte encodings -/

/-- Little-endian byte encoding of `v` on `n` bytes (least significant
byte first), as written by the Buffer `writeUInt32LE` / `writeBigUInt64LE`
methods. -/
def leBytes : Nat → Nat → List Nat
  | 0, _ => []
  | n + 1, v => v % 256 :: leBytes n (v / 256)

/-- Little-endian value of a byte list, as read by the Buffer
`readUInt16LE` / `readBigUInt64LE` methods. -/
def leVal (l : List Nat) : Nat :=
  l.foldr (fun b acc => b + 256 * acc) 0

/- ## Buffer-copy semantics -/

/-- JS `Buffer.copy` of `src` into `buf` at `off`: copies as many source
bytes as fit between `off` and the end of `buf`; the rest of `buf` is
unchanged.  Never changes the buffer's length. -/
def bufWrite (buf src : List Nat) (off : Nat) : List Nat :=
  let copyLen := min src.length (buf.length - off)
  buf.take off ++ src.take copyLen ++ buf.drop (off + copyLen)

/- ## Instruction codec (`SipPrivacyClient.encodeShieldedTransferData`) -/

/-- Arguments of the shielded-transfer instruction
(`ShieldedTransferArgs` in the client; the `PublicKey` field is its 32
raw bytes, the `Buffer` fields are raw byte lists, `proofData` is the
source's `proof` field). -/
structure ShieldedTransferArgs where
  amountCommitment : List Nat
  stealthPubkey : List Nat
  ephemeralPubkey : List Nat
  viewingKeyHash : List Nat
  encryptedAmount : List Nat
  proofData : List Nat
  actualAmount : Nat
deriving DecidableEq

/-- The fixed 8-byte instruction discriminator
(first 8 bytes of sha256 of the global shielded-transfer tag, hard-coded
in the client). -/
def shieldedTransferDiscriminator : List Nat :=
  [0x5f, 0x80, 0xa9, 0x2e, 0x4b, 0x5d, 0x76, 0x98]

/-- `SipPrivacyClient.encodeShieldedTransferData`: allocates a buffer of
the computed total size and writes the fields in source order at the
source's running offsets, with JS `Buffer.copy` semantics for each write
(`bufWrite`) and little-endian multi-byte integers. -/
def encodeShieldedTransferData (args : ShieldedTransferArgs) : List Nat :=
  let encryptedAmountLen := args.encryptedAmount.length
  let proofLen := args.proofData.length
  let totalSize :=
    8 + 33 + 32 + 33 + 32 + (4 + encryptedAmountLen) + (4 + proofLen) + 8
  let buffer := List.replicate totalSize 0
  let buffer := bufWrite buffer shieldedTransferDiscriminator 0
  let buffer := bufWrite buffer args.amountCommitment 8
  let buffer := bufWrite buffer args.stealthPubkey (8 + 33)
  let buffer := bufWrite buffer args.ephemeralPubkey (8 + 33 + 32)
  let buffer := bufWrite buffer args.viewingKeyHash (8 + 33 + 32 + 33)
  let buffer := bufWrite buffer (leBytes 4 encryptedAmountLen) (8 + 33 + 32 + 33 + 32)
  let buffer := bufWrite buffer args.encryptedAmount (8 + 33 + 32 + 33 + 32 + 4)
  let buffer := bufWrite buffer (leBytes 4 proofLen)
    (8 + 33 + 32 + 33 + 32 + 4 + encryptedAmountLen)
  let buffer := bufWrite buffer args.proofData
    (8 + 33 + 32 + 33 + 32 + 4 + encryptedAmountLen + 4)
  bufWrite buffer (leBytes 8 args.actualAmount)
    (8 + 33 + 32 + 33 + 32 + 4 + encryptedAmountLen + 4 + proofLen)

/- ## Config account decoding (`SipPrivacyClient.fetchConfig`) -/

/-- The decoded config account.  `bump` is `none` when the source reads
`data[75]` out of bounds (JS yields `undefined` there without throwing). -/
structure ConfigAccount where
  authority : List Nat
  feeCollector : List Nat
  feeBps : Nat
  paused : Bool
  totalTransfers : Nat
  bump : Option Nat
deriving DecidableEq

/-- Field parsing of `fetchConfig`: skip the 8-byte discriminator, then
read `authority` (32), `feeCollector` (32), `feeBps` (u16-LE at 64),
`paused` (`data[66] === 1`), `totalTransfers` (u64-LE at 67), `bump`
(`data[75]`).  `readUInt16LE(64)` and `readBigUInt64LE(67)` throw a
`RangeError` (caught by `fetchConfig`'s `try/catch`) when the buffer is
too short; both bounds collapse to the stricter `67 + 8 ≤ data.length`.
Plain indexing (`data[66]`, `data[75]`) never throws in JS: it yields
`undefined` out of bounds. -/
def decodeConfigAccount (raw : List Nat) : Option ConfigAccount :=
  let data := raw.drop 8
  if 75 ≤ data.length then
    some {
      authority := data.take 32
      feeCollector := (data.drop 32).take 32
      feeBps := leVal ((data.drop 64).take 2)
      paused := decide (data.getD 66 0 = 1)
      totalTransfers := leVal ((data.drop 67).take 8)
      bump := data.get? 75 }
  else none

/-- `fetchConfig` as seen by its caller: `none` both when the account does
not exist and when parsing throws (the `catch` block returns `null`). -/
def fetchConfigResult (account : Option (List Nat)) : Option ConfigAccount :=
  match account with
  | none => none
  | some raw => decodeConfigAccount raw

/- ## Transfer orchestrator (`SipPrivacyClient.buildShieldedTransfer`) -/

/-- The externally observable steps of one `buildShieldedTransfer`
invocation, in the order the source performs them. -/
inductive BuildStep
  | fetchConfig
  | validatePaused
  | deriveEphemeral
  | deriveSharedSecret
  | createCommitment
  | encryptAmount
  | computeViewingKeyHash
  | generateProof
  | encode
deriving DecidableEq

/-- Outputs of the (random-source-drawing) crypto collaborators for one
invocation, supplied as an environment so the orchestrator is a pure
function of them. -/
structure CryptoEnv where
  ephemeralPublicKey : List Nat
  ephemeralPrivateKey : List Nat
  sharedSecret : List Nat
  commitment : List Nat
  blindingFactor : List Nat
  encNonce : List Nat
  encCiphertext : List Nat
  viewingKeyHash : List Nat
  proofBytes : List Nat

/-- `ShieldedTransferParams` (amount in SOL; keys as raw bytes). -/
structure ShieldedTransferParams where
  amount : ℚ
  stealthPubkey : List Nat
  recipientSpendingKey : List Nat
  recipientViewingKey : List Nat

/-- What `buildShieldedTransfer` hands back on success (the transaction's
instruction data plus the ephemeral public key; PDAs and blockhash belong
to external collaborators and are out of the embedded core). -/
structure BuildResult where
  instructionData : List Nat
  ephemeralPubkey : List Nat

def LAMPORTS_PER_SOL : ℚ := 1000000000

/-- `buildShieldedTransfer`: fetch config (its result is the `cfg`
argument), fail if missing, fail if paused, then derive the ephemeral
key, shared secret, commitment, encrypted amount, viewing-key hash and
mock proof, and encode the instruction.  The returned trace records the
steps actually performed, in order. -/
def buildShieldedTransfer (cfg : Option ConfigAccount) (env : CryptoEnv)
    (params : ShieldedTransferParams) :
    Except String BuildResult × List BuildStep :=
  match cfg with
  | none =>
    (.error "Program not initialized - config account not found", [.fetchConfig])
  | some config =>
    if config.paused then
      (.error "Program is paused", [.fetchConfig, .validatePaused])
    else
      let lamports := (⌊params.amount * LAMPORTS_PER_SOL⌋).toNat
      let instructionData := encodeShieldedTransferData {
        amountCommitment := env.commitment
        stealthPubkey := params.stealthPubkey
        ephemeralPubkey := env.ephemeralPublicKey
        viewingKeyHash := env.viewingKeyHash
        encryptedAmount := env.encNonce ++ env.encCiphertext
        proofData := env.proofBytes
        actualAmount := lamports }
      (.ok ⟨instructionData, env.ephemeralPublicKey⟩,
       [.fetchConfig, .validatePaused, .deriveEphemeral, .deriveSharedSecret,
        .createCommitment, .encryptAmount, .computeViewingKeyHash,
        .generateProof, .encode])

/- ## String helpers shared by the stealth-address and amount validators -/

/-- JS `split(":")` on a character list: `""` splits to `[""]`, separators
at the ends produce empty segments. -/
def splitColon : List Char → List (List Char)
  | [] => [[]]
  | c :: rest =>
    let r := splitColon rest
    if c = ':' then [] :: r
    else
      match r with
      | [] => [[c]]
      | a :: t => (c :: a) :: t

/-- The character class `[0-9a-fA-F]`. -/
def isHexDigitChar (c : Char) : Bool :=
  c.isDigit || ('a' ≤ c && c ≤ 'f') || ('A' ≤ c && c ≤ 'F')

/-- The regex `/^(0x)?[0-9a-fA-F]+$/`: an optional `0x`, then at least one
hex digit. -/
def isHexKey (l : List Char) : Bool :=
  let body := if l.take 2 = ['0', 'x'] then l.drop 2 else l
  !body.isEmpty && body.all isHexDigitChar

/-- The character class `[1-9A-HJ-NP-Za-km-z]` (base58, excluding
`0`, `I`, `O`, `l`). -/
def isBase58Char (c : Char) : Bool :=
  ('1' ≤ c && c ≤ '9') || ('A' ≤ c && c ≤ 'H') || ('J' ≤ c && c ≤ 'N') ||
  ('P' ≤ c && c ≤ 'Z') || ('a' ≤ c && c ≤ 'k') || ('m' ≤ c && c ≤ 'z')

/-- The JS whitespace characters relevant to `trim()` here. -/
def isWsChar (c : Char) : Bool :=
  c = ' ' || c = '\t' || c = '\n' || c = '\r'

/-- JS `trim()`. -/
def jsTrim (l : List Char) : List Char :=
  ((l.dropWhile isWsChar).reverse.dropWhile isWsChar).reverse

/- ## Address validation (`useSend.ts`) -/

/-- `AddressValidation` (`type` is `"stealth" | "regular" | "invalid"`). -/
structure AddressValidation where
  isValid : Bool
  type : String
  chain : Option String := none
  error : Option String := none
deriving DecidableEq

def supportedChains : List (List Char) :=
  ["solana".data, "ethereum".data, "near".data]

/-- `validateStealthAddress` from `useSend.ts`: requires the `sip:`
prefix, exactly 3 colon-separated parts after it, a supported chain, and
hex-shaped keys. -/
def validateStealthAddress (address : String) : AddressValidation :=
  let l := address.data
  if l.take 4 ≠ "sip:".data then
    ⟨false, "invalid", none, some "Not a stealth address"⟩
  else
    let parts := splitColon (l.drop 4)
    if parts.length ≠ 3 then
      ⟨false, "invalid", none, some "Invalid stealth address format"⟩
    else
      let chain := parts.getD 0 []
      let spendingKey := parts.getD 1 []
      let viewingKey := parts.getD 2 []
      if chain ∉ supportedChains then
        ⟨false, "invalid", none, some ("Unsupported chain: " ++ String.mk chain)⟩
      else if !isHexKey spendingKey || !isHexKey viewingKey then
        ⟨false, "invalid", none, some "Invalid key format"⟩
      else
        ⟨true, "stealth", some (String.mk chain), none⟩

/-- `validateSolanaAddress` from `useSend.ts`: the base58 32–44-character
regex. -/
def validateSolanaAddress (address : String) : AddressValidation :=
  let l := address.data
  if 32 ≤ l.length ∧ l.length ≤ 44 ∧ l.all isBase58Char then
    ⟨true, "regular", some "solana", none⟩
  else
    ⟨false, "invalid", none, some "Invalid Solana address"⟩

/-- `validateAddress` from `useSend.ts`: empty/whitespace is rejected,
then the trimmed input is dispatched on the `sip:` prefix. -/
def validateAddress (address : String) : AddressValidation :=
  if (jsTrim address.data).isEmpty then
    ⟨false, "invalid", none, some "Address is required"⟩
  else
    let trimmed := String.mk (jsTrim address.data)
    if trimmed.data.take 4 = "sip:".data then
      validateStealthAddress trimmed
    else
      validateSolanaAddress trimmed

/- ## Stealth meta-address format/parse -/

/-- `StealthMetaAddress` (key fields are hex strings; `label` optional). -/
structure StealthMetaAddress where
  chain : String
  spendingKey : String
  viewingKey : String
  label : Option String := none
deriving DecidableEq

/-- Modelled from the spec: `formatStealthMetaAddress` of the absent
`lib/stealth.ts` — exact format `sip:<chain>:<spendingKeyHex>:<viewingKeyHex>`,
`label` never included. -/
def formatStealthMetaAddress (meta : StealthMetaAddress) : String :=
  "sip:" ++ meta.chain ++ ":" ++ meta.spendingKey ++ ":" ++ meta.viewingKey

/-- Modelled from the spec: `parseStealthMetaAddress` of the absent
`lib/stealth.ts` — `none` unless the string starts with `sip:`, splits
into exactly 4 colon-delimited segments, names a supported chain, and has
optionally `0x`-prefixed hex key segments. -/
def parseStealthMetaAddress (s : String) : Option StealthMetaAddress :=
  let l := s.data
  if l.take 4 ≠ "sip:".data then none
  else
    let parts := splitColon l
    if parts.length ≠ 4 then none
    else
      let chain := parts.getD 1 []
      let spendingKey := parts.getD 2 []
      let viewingKey := parts.getD 3 []
      if chain ∈ supportedChains ∧ isHexKey spendingKey ∧ isHexKey viewingKey then
        some ⟨String.mk chain, String.mk spendingKey, String.mk viewingKey, none⟩
      else none

/- ## Hex encoding primitives -/

def hexDigitChars : List Char := "0123456789abcdef".data

/-- Lowercase hex character of a nibble. -/
def hexCharOf (n : Nat) : Char := hexDigitChars.getD n '0'

/-- The two lowercase hex characters of one byte. -/
def byteToHexChars (b : Fin 256) : List Char :=
  [hexCharOf (b.val / 16), hexCharOf (b.val % 16)]

/-- Modelled from the spec: `bytesToHex` of the absent `lib/stealth.ts` —
each byte becomes two lowercase hex characters, no separators, empty
input becomes the empty string. -/
def bytesToHex (b : List (Fin 256)) : String :=
  String.mk (b.map byteToHexChars).flatten

/-- Case-insensitive hex digit value. -/
def hexValOf (c : Char) : Option (Fin 16) :=
  (([('0', (0 : Fin 16)), ('1', 1), ('2', 2), ('3', 3), ('4', 4), ('5', 5),
     ('6', 6), ('7', 7), ('8', 8), ('9', 9),
     ('a', 10), ('b', 11), ('c', 12), ('d', 13), ('e', 14), ('f', 15),
     ('A', 10), ('B', 11), ('C', 12), ('D', 13), ('E', 14), ('F', 15)]).find?
    (fun p => p.1 = c)).map (fun p => p.2)

/-- Decode hex digits two at a time; odd-length or non-hex input fails. -/
def hexPairsToBytes : List Char → Option (List (Fin 256))
  | [] => some []
  | [_] => none
  | c1 :: c2 :: rest => do
    let hi ← hexValOf c1
    let lo ← hexValOf c2
    let tail ← hexPairsToBytes rest
    pure (⟨16 * hi.val + lo.val, by have h1 := hi.isLt; have h2 := lo.isLt; omega⟩ :: tail)

/-- Modelled from the spec: `hexToBytes` of the absent `lib/stealth.ts` —
strips an optional `0x` prefix, case-insensitive, errors (as `none`) on
odd length or non-hex digits. -/
def hexToBytes (s : String) : Option (List (Fin 256)) :=
  let l := s.data
  let body := if l.take 2 = ['0', 'x'] then l.drop 2 else l
  hexPairsToBytes body

/- ## Amount validation and the send flow (`useSend.ts`) -/

def digitVal (c : Char) : Nat := c.toNat - '0'.toNat

def digitsToNat (l : List Char) : Nat :=
  l.foldl (fun acc c => 10 * acc + digitVal c) 0

/-- JS `parseFloat` on plain decimal notation (the notation the validated
inputs use): skip leading whitespace, optional sign, integer digits,
optional fraction digits; `none` (NaN) when no digit is read; trailing
text is ignored.  Exponents and `Infinity` are outside the embedded
fragment. -/
def parseFloatQ (s : String) : Option ℚ :=
  let l := s.data.dropWhile isWsChar
  let signed : ℚ × List Char :=
    match l with
    | '-' :: rest => (-1, rest)
    | '+' :: rest => (1, rest)
    | _ => (1, l)
  let intPart := signed.2.takeWhile Char.isDigit
  let afterInt := signed.2.dropWhile Char.isDigit
  let fracPart :=
    match afterInt with
    | '.' :: r => r.takeWhile Char.isDigit
    | _ => []
  if intPart.isEmpty ∧ fracPart.isEmpty then none
  else
    some (signed.1 *
      ((digitsToNat intPart : ℚ) + (digitsToNat fracPart : ℚ) / 10 ^ fracPart.length))

/-- The `{ isValid, error? }` result of `validateAmount`. -/
structure AmountValidation where
  isValid : Bool
  error : Option String := none
deriving DecidableEq

/-- `validateAmount` from `useSend.ts`, checks in source order: required,
numeric, positive, within balance, at least the 0.001 SOL minimum. -/
def validateAmount (amount : String) (balance : ℚ) : AmountValidation :=
  if (jsTrim amount.data).isEmpty then
    ⟨false, some "Amount is required"⟩
  else
    match parseFloatQ amount with
    | none => ⟨false, some "Invalid amount"⟩
    | some numAmount =>
      if numAmount ≤ 0 then ⟨false, some "Amount must be greater than 0"⟩
      else if balance < numAmount then ⟨false, some "Insufficient balance"⟩
      else if numAmount < 1 / 1000 then ⟨false, some "Minimum amount is 0.001 SOL"⟩
      else ⟨true, none⟩

/-- The externally observable stages of `useSend`'s `send`. -/
inductive SendStep
  | validate
  | prepare
  | sign
  | submit
deriving DecidableEq

/-- Outcome of one `send` call. -/
structure SendOutcome where
  success : Bool
  sendError : Option String
  steps : List SendStep
deriving DecidableEq

/-- `send` from `useSend.ts`: recipient and amount are validated (against
the source's fixed mock balance of 100) before the prepare/sign/submit
stages; a validation failure throws, is caught, and ends the call with an
error outcome and no submission. -/
def sendFlow (isConnected : Bool) (recipient amount : String) : SendOutcome :=
  if !isConnected then ⟨false, some "Wallet not connected", []⟩
  else
    let addressValidation := validateAddress recipient
    if !addressValidation.isValid then
      ⟨false, some (addressValidation.error.getD "Invalid address"), [.validate]⟩
    else
      let amountValidation := validateAmount amount 100
      if !amountValidation.isValid then
        ⟨false, some (amountValidation.error.getD "Invalid amount"), [.validate]⟩
      else
        ⟨true, none, [.validate, .prepare, .sign, .submit]⟩

/- ## Scan flow (`tests/e2e/flows/scan.test.ts`, `executeScanFlow`) -/

structure Announcement where
  id : String
  ephemeralPubKey : String
  stealthAddress : String
  amount : String
  token : String
  timestamp : Nat
  txHash : String
  isOurs : Bool
deriving DecidableEq

structure PaymentRecord where
  id : String
  type : String
  amount : String
  token : String
  status : String
  stealthAddress : Option String
  txHash : String
  timestamp : Nat
  claimed : Bool
deriving DecidableEq

structure ScanResult where
  found : Nat
  scanned : Nat
  newPayments : List PaymentRecord
  errors : List String
deriving DecidableEq

structure ScanProgress where
  stage : String
  current : Nat
  total : Nat
deriving DecidableEq

structure StealthKeys where
  spendingPrivateKey : String
  viewingPrivateKey : String

/-- The payment record built for an owned, not-yet-known announcement
(the `Date.now()` part of the id is modelled by the running `found`
counter, which the id also contains in the source). -/
def mkScanPayment (a : Announcement) (found : Nat) : PaymentRecord :=
  { id := "payment_" ++ toString found
    type := "receive"
    amount := a.amount
    token := a.token
    status := "completed"
    stealthAddress := some ("sip:solana:" ++ a.ephemeralPubKey ++ ":derived")
    txHash := a.txHash
    timestamp := a.timestamp
    claimed := false }

/-- One iteration of the scan loop: count the announcement as scanned,
skip it when its transaction hash is already known, otherwise check
ownership and record a new payment. -/
def scanStep (existingTxHashes : List String) (r : ScanResult)
    (a : Announcement) : ScanResult :=
  let r := { r with scanned := r.scanned + 1 }
  if a.txHash ∈ existingTxHashes then r
  else if a.isOurs then
    { r with
        found := r.found + 1
        newPayments := r.newPayments ++ [mkScanPayment a (r.found + 1)] }
  else r

/-- The timestamp filter of `executeScanFlow`
(`options.fromTimestamp ?` is a JS truthiness test, so a
present-but-zero timestamp does not filter). -/
def filterAnnouncements (announcements : List Announcement) :
    Option Nat → List Announcement
  | some t =>
    if t = 0 then announcements
    else announcements.filter (fun a => t < a.timestamp)
  | none => announcements

/-- `executeScanFlow`: validate keys, filter announcements by timestamp,
then scan.  The source's BATCH_SIZE-50 loop visits the batch slices in
order and the batches concatenate back to the filtered list, so it is
the fold below in the same visit order (the batch boundary only adds a
delay). -/
def executeScanFlow (keys : Option StealthKeys) (existingTxHashes : List String)
    (announcements : List Announcement) (fromTimestamp : Option Nat) :
    ScanProgress × ScanResult :=
  match keys with
  | none => (⟨"error", 0, 0⟩, ⟨0, 0, [], ["No stealth keys found"]⟩)
  | some _ =>
    let filtered := filterAnnouncements announcements fromTimestamp
    let total := filtered.length
    if total = 0 then (⟨"complete", 0, 0⟩, ⟨0, 0, [], []⟩)
    else
      let result := filtered.foldl (scanStep existingTxHashes) ⟨0, 0, [], []⟩
      (⟨"complete", total, total⟩, result)

/- ## Client factory singleton (`getSipPrivacyClient`) -/

/-- The client's captured construction arguments (the `Connection` object
is identified by an abstract id; the behaviour at issue — which arguments
the cached instance retains — does not depend on its contents). -/
structure SipPrivacyClient where
  connection : Nat
  programId : String
deriving DecidableEq

def SIP_PRIVACY_PROGRAM_ID : String :=
  "S1PMFspo4W6BYKHWkHNF7kZ3fnqibEXg3LQjxepS9at"

/-- `getSipPrivacyClient` with the module-level `clientInstance` variable
made explicit: returns the cached instance when present, otherwise
constructs one (defaulting `programId`) and caches it. -/
def getSipPrivacyClient (connection : Nat) (programId : Option String)
    (clientInstance : Option SipPrivacyClient) :
    SipPrivacyClient × Option SipPrivacyClient :=
  match clientInstance with
  | some client => (client, some client)
  | none =>
    let client : SipPrivacyClient :=
      ⟨connection, programId.getD SIP_PRIVACY_PROGRAM_ID⟩
    (client, some client)

/-- `resetSipPrivacyClient`: clears the cached instance. -/
def resetSipPrivacyClient (_ : Option SipPrivacyClient) :
    Option SipPrivacyClient :=
  none

/- ═══════════════════════════════════════════════════════════════════ -/
/- ## Theorems -/

/- ### Generic list helpers (offsets into concatenated buffers) -/

/-- Dropping exactly over a prefix of known length lands in the suffix. -/
theorem drop_concat {α : Type} (a b : List α) (n m : Nat)
    (h : n = a.length + m) : (a ++ b).drop n = b.drop m := by
  subst h
  induction a with
  | nil => simp
  | cons x xs ih => simp [List.length_cons, Nat.succ_add, ih]

/-- Taking exactly a prefix of known length returns that prefix. -/
theorem take_concat {α : Type} (a b : List α) (n : Nat)
    (h : n = a.length) : (a ++ b).take n = a := by
  subst h
  induction a with
  | nil => simp
  | cons x xs ih => simp [ih]

/-- Indexing past a prefix of known length indexes into the suffix. -/
theorem getD_concat {α : Type} (a b : List α) (d : α) (n m : Nat)
    (h : n = a.length + m) : (a ++ b).getD n d = b.getD m d := by
  subst h
  induction a with
  | nil => simp
  | cons x xs ih => simpa [List.length_cons, Nat.succ_add] using ih

/-- Optional indexing past a prefix of known length indexes into the suffix. -/
theorem get?_concat {α : Type} (a b : List α) (n m : Nat)
    (h : n = a.length + m) : (a ++ b).get? n = b.get? m := by
  subst h
  induction a with
  | nil => simp
  | cons x xs ih => simpa [List.length_cons, Nat.succ_add] using ih

/- ### Little-endian encodings -/

theorem length_leBytes (n v : Nat) : (leBytes n v).length = n := by
  induction n generalizing v with
  | zero => rfl
  | succ n ih => simp [leBytes, ih]

theorem leVal_leBytes (n v : Nat) : leVal (leBytes n v) = v % 256 ^ n := by
  induction n generalizing v with
  | zero => simp [leBytes, leVal, Nat.mod_one]
  | succ n ih =>
    have h : leVal (leBytes (n + 1) v) =
        v % 256 + 256 * leVal (leBytes n (v / 256)) := by
      simp [leBytes, leVal]
    rw [h, ih, pow_succ']
    exact (Nat.mod_mul).symm

/- ### Buffer-copy semantics -/

theorem bufWrite_length (buf src : List Nat) (off : Nat) :
    (bufWrite buf src off).length = buf.length := by
  unfold bufWrite
  simp only [List.length_append, List.length_take, List.length_drop]
  omega

/-- Writing `src` at the boundary between a completed prefix and an
untouched suffix appends `src` to the prefix, consuming the front of the
suffix, provided the suffix is long enough. -/
theorem bufWrite_concat (done rest src : List Nat) (off : Nat)
    (hoff : off = done.length) (hlen : src.length ≤ rest.length) :
    bufWrite (done ++ rest) src off = done ++ src ++ rest.drop src.length := by
  subst hoff
  have hmin : min src.length ((done ++ rest).length - done.length) = src.length := by
    simp only [List.length_append]
    omega
  simp only [bufWrite, hmin, List.take_length,
    take_concat done rest _ rfl, drop_concat done rest _ src.length rfl,
    List.append_assoc]

/-- Writing into the zero region that follows the already-written prefix
extends the prefix and shrinks the zero region. -/
theorem bufWrite_chain (done src : List Nat) (off n : Nat)
    (hoff : off = done.length) (hlen : src.length ≤ n) :
    bufWrite (done ++ List.replicate n 0) src off =
      (done ++ src) ++ List.replicate (n - src.length) 0 := by
  rw [bufWrite_concat done _ src off hoff (by simpa using hlen),
    List.drop_replicate, List.append_assoc]

/-- First write into a freshly allocated zero buffer. -/
theorem bufWrite_chain_zero (src : List Nat) (n : Nat)
    (hlen : src.length ≤ n) :
    bufWrite (List.replicate n 0) src 0 =
      src ++ List.replicate (n - src.length) 0 := by
  have h := bufWrite_chain [] src 0 n rfl hlen
  simpa using h

/- ### Instruction codec -/

/-- Encoding layout: with the documented fixed field widths, the encoded
instruction is exactly the discriminator followed by the fields in source
order, the variable fields length-prefixed with u32-LE, and the amount as
u64-LE. -/
theorem encodeShieldedTransferData_layout (args : ShieldedTransferArgs)
    (h1 : args.amountCommitment.length = 33)
    (h2 : args.stealthPubkey.length = 32)
    (h3 : args.ephemeralPubkey.length = 33)
    (h4 : args.viewingKeyHash.length = 32) :
    encodeShieldedTransferData args =
      shieldedTransferDiscriminator ++ args.amountCommitment ++
      args.stealthPubkey ++ args.ephemeralPubkey ++ args.viewingKeyHash ++
      leBytes 4 args.encryptedAmount.length ++ args.encryptedAmount ++
      leBytes 4 args.proofData.length ++ args.proofData ++
      leBytes 8 args.actualAmount := by
  obtain ⟨ac, sp, ep, vk, ea, pf, amt⟩ := args
  simp only at h1 h2 h3 h4
  have hdisc : shieldedTransferDiscriminator.length = 8 := rfl
  simp only [encodeShieldedTransferData]
  rw [bufWrite_chain_zero _ _ (by simp [hdisc] <;> omega)]
  rw [bufWrite_chain _ _ _ _ (by simp [hdisc] <;> omega) (by simp [h1, hdisc] <;> omega)]
  rw [bufWrite_chain _ _ _ _ (by simp [hdisc, h1] <;> omega)
    (by simp [hdisc, h1, h2] <;> omega)]
  rw [bufWrite_chain _ _ _ _ (by simp [hdisc, h1, h2] <;> omega)
    (by simp [hdisc, h1, h2, h3] <;> omega)]
  rw [bufWrite_chain _ _ _ _ (by simp [hdisc, h1, h2, h3] <;> omega)
    (by simp [hdisc, h1, h2, h3, h4] <;> omega)]
  rw [bufWrite_chain _ _ _ _ (by simp [hdisc, h1, h2, h3, h4] <;> omega)
    (by simp [hdisc, h1, h2, h3, h4, length_leBytes] <;> omega)]
  rw [bufWrite_chain _ _ _ _
    (by simp [hdisc, h1, h2, h3, h4, length_leBytes] <;> omega)
    (by simp [hdisc, h1, h2, h3, h4, length_leBytes] <;> omega)]
  rw [bufWrite_chain _ _ _ _
    (by simp [hdisc, h1, h2, h3, h4, length_leBytes] <;> omega)
    (by simp [hdisc, h1, h2, h3, h4, length_leBytes] <;> omega)]
  rw [bufWrite_chain _ _ _ _
    (by simp [hdisc, h1, h2, h3, h4, length_leBytes] <;> omega)
    (by simp [hdisc, h1, h2, h3, h4, length_leBytes] <;> omega)]
  rw [bufWrite_chain _ _ _ _
    (by simp [hdisc, h1, h2, h3, h4, length_leBytes] <;> omega)
    (by simp [hdisc, h1, h2, h3, h4, length_leBytes] <;> omega)]
  have hz : 8 + 33 + 32 + 33 + 32 + (4 + ea.length) + (4 + pf.length) + 8 -
      shieldedTransferDiscriminator.length - ac.length - sp.length - ep.length -
      vk.length - (leBytes 4 ea.length).length - ea.length -
      (leBytes 4 pf.length).length - pf.length - (leBytes 8 amt).length = 0 := by
    simp [hdisc, h1, h2, h3, h4, length_leBytes] <;> omega
  rw [hz]
  simp [List.append_assoc]

/-- C1: `encodeShieldedTransfer` serializes its arguments as the fixed
8-byte discriminator followed, in this exact order, by `amountCommitment`
(33), `stealthPubkey` (32), `ephemeralPubkey` (33), `viewingKeyHash`
(32), a u32-LE length prefix plus the `encryptedAmount` bytes, a u32-LE
length prefix plus the `proof` bytes, and `actualAmount` as u64-LE; for
every args value the total encoded length is
`8+33+32+33+32+4+len(encryptedAmount)+4+len(proof)+8` (346 bytes when
`encryptedAmount` has length 64 and `proof` has length 128). -/
theorem claim_C1_encodeShieldedTransfer_layout (args : ShieldedTransferArgs) :
    shieldedTransferDiscriminator.length = 8
    ∧ (encodeShieldedTransferData args).length =
        8 + 33 + 32 + 33 + 32 + 4 + args.encryptedAmount.length +
          4 + args.proofData.length + 8
    ∧ (args.amountCommitment.length = 33 → args.stealthPubkey.length = 32 →
        args.ephemeralPubkey.length = 33 → args.viewingKeyHash.length = 32 →
        encodeShieldedTransferData args =
          shieldedTransferDiscriminator ++ args.amountCommitment ++
          args.stealthPubkey ++ args.ephemeralPubkey ++ args.viewingKeyHash ++
          leBytes 4 args.encryptedAmount.length ++ args.encryptedAmount ++
          leBytes 4 args.proofData.length ++ args.proofData ++
          leBytes 8 args.actualAmount)
    ∧ (args.encryptedAmount.length = 64 → args.proofData.length = 128 →
        (encodeShieldedTransferData args).length = 346) := by
  have hlen : (encodeShieldedTransferData args).length =
      8 + 33 + 32 + 33 + 32 + 4 + args.encryptedAmount.length +
        4 + args.proofData.length + 8 := by
    simp [encodeShieldedTransferData, bufWrite_length] <;> omega
  refine ⟨rfl, hlen, ?_, ?_⟩
  · intro h1 h2 h3 h4
    exact encodeShieldedTransferData_layout args h1 h2 h3 h4
  · intro he hp
    rw [hlen, he, hp]

/-- Witness for C1 at a concrete argument value. -/
theorem claim_C1_encodeShieldedTransfer_layout_witness :
    encodeShieldedTransferData ⟨List.replicate 33 1, List.replicate 32 2,
        List.replicate 33 3, List.replicate 32 4, List.replicate 64 5,
        List.replicate 128 6, 12345⟩ =
      shieldedTransferDiscriminator ++ List.replicate 33 1 ++
      List.replicate 32 2 ++ List.replicate 33 3 ++ List.replicate 32 4 ++
      leBytes 4 (List.replicate 64 (5 : Nat)).length ++ List.replicate 64 5 ++
      leBytes 4 (List.replicate 128 (6 : Nat)).length ++ List.replicate 128 6 ++
      leBytes 8 12345
    ∧ (encodeShieldedTransferData ⟨List.replicate 33 1, List.replicate 32 2,
        List.replicate 33 3, List.replicate 32 4, List.replicate 64 5,
        List.replicate 128 6, 12345⟩).length = 346 :=
  ⟨(claim_C1_encodeShieldedTransfer_layout _).2.2.1
      (by simp) (by simp) (by simp) (by simp),
   (claim_C1_encodeShieldedTransfer_layout _).2.2.2 (by simp) (by simp)⟩

/- ### Config account decoding -/

/-- C2: decoding a config account skips the 8-byte discriminator and
reads `authority` at 0–31, `feeCollector` at 32–63, `feeBps` as u16-LE at
64, `paused` as a one-byte bool at 66, `totalTransfers` as u64-LE at 67
and `bump` at 75: on every well-formed buffer the decoded value is
exactly the fields laid out at those offsets. -/
theorem claim_C2_decodeConfig_offsets (disc authority feeCollector : List Nat)
    (feeBps pausedByte totalTransfers bump : Nat)
    (hd : disc.length = 8) (ha : authority.length = 32)
    (hf : feeCollector.length = 32)
    (hb : feeBps < 2 ^ 16) (ht : totalTransfers < 2 ^ 64) :
    decodeConfigAccount
        (disc ++ authority ++ feeCollector ++ leBytes 2 feeBps ++
          [pausedByte] ++ leBytes 8 totalTransfers ++ [bump]) =
      some ⟨authority, feeCollector, feeBps, decide (pausedByte = 1),
        totalTransfers, some bump⟩ := by
  have h2562 : (256 : ℕ) ^ 2 = 2 ^ 16 := by norm_num
  have h2568 : (256 : ℕ) ^ 8 = 2 ^ 64 := by norm_num
  simp only [decodeConfigAccount, List.append_assoc]
  rw [drop_concat disc _ 8 0 (by omega)]
  simp only [List.drop_zero]
  set b := authority ++ (feeCollector ++ (leBytes 2 feeBps ++
    ([pausedByte] ++ (leBytes 8 totalTransfers ++ [bump])))) with hbdef
  have hblen : b.length = 76 := by
    simp [hbdef, ha, hf, length_leBytes]
  have h32 : b.drop 32 = feeCollector ++ (leBytes 2 feeBps ++
      ([pausedByte] ++ (leBytes 8 totalTransfers ++ [bump]))) := by
    rw [hbdef, drop_concat authority _ 32 0 (by omega)]
    simp
  have h64 : b.drop 64 = leBytes 2 feeBps ++
      ([pausedByte] ++ (leBytes 8 totalTransfers ++ [bump])) := by
    rw [hbdef, drop_concat authority _ 64 32 (by omega),
      drop_concat feeCollector _ 32 0 (by omega)]
    simp
  have h67 : b.drop 67 = leBytes 8 totalTransfers ++ [bump] := by
    rw [hbdef, drop_concat authority _ 67 35 (by omega),
      drop_concat feeCollector _ 35 3 (by omega),
      drop_concat (leBytes 2 feeBps) _ 3 1 (by simp [length_leBytes]),
      drop_concat [pausedByte] _ 1 0 (by simp)]
    simp
  have h66 : b.getD 66 0 = pausedByte := by
    rw [hbdef, getD_concat authority _ 0 66 34 (by omega),
      getD_concat feeCollector _ 0 34 2 (by omega),
      getD_concat (leBytes 2 feeBps) _ 0 2 0 (by simp [length_leBytes])]
    simp
  have h75 : b.get? 75 = some bump := by
    rw [hbdef, get?_concat authority _ 75 43 (by omega),
      get?_concat feeCollector _ 43 11 (by omega),
      get?_concat (leBytes 2 feeBps) _ 11 9 (by simp [length_leBytes]),
      get?_concat [pausedByte] _ 9 8 (by simp),
      get?_concat (leBytes 8 totalTransfers) _ 8 0 (by simp [length_leBytes])]
    simp
  rw [if_pos (by rw [hblen]; omega)]
  simp only [Option.some.injEq, ConfigAccount.mk.injEq]
  refine ⟨?_, ?_, ?_, ?_, ?_, ?_⟩
  · rw [hbdef, take_concat authority _ 32 ha.symm]
  · rw [h32, take_concat feeCollector _ 32 hf.symm]
  · rw [h64, take_concat (leBytes 2 feeBps) _ 2 (by simp [length_leBytes]),
      leVal_leBytes, h2562, Nat.mod_eq_of_lt hb]
  · simp only [h66]
  · rw [h67, take_concat (leBytes 8 totalTransfers) _ 8 (by simp [length_leBytes]),
      leVal_leBytes, h2568, Nat.mod_eq_of_lt ht]
  · rw [h75]

/-- Witness for C2 at a concrete well-formed config buffer. -/
theorem claim_C2_decodeConfig_offsets_witness :
    decodeConfigAccount
        (List.replicate 8 0 ++ List.replicate 32 7 ++ List.replicate 32 9 ++
          leBytes 2 250 ++ [1] ++ leBytes 8 77 ++ [254]) =
      some ⟨List.replicate 32 7, List.replicate 32 9, 250,
        decide ((1 : Nat) = 1), 77, some 254⟩ :=
  claim_C2_decodeConfig_offsets _ _ _ _ _ _ _
    (by simp) (by simp) (by simp) (by norm_num) (by norm_num)

/-- C3 counterexample: a 20-byte (truncated) config account makes
`fetchConfig` return the same `none` as a missing account — not a typed
`TruncatedAccount` error — and an 83-byte buffer, one byte short of the
minimum well-formed length, decodes without any error at all. -/
theorem claim_C3_counterexample :
    fetchConfigResult (some (List.replicate 20 0)) = none
    ∧ fetchConfigResult none = none
    ∧ (decodeConfigAccount (List.replicate 83 0)).isSome = true := by
  refine ⟨rfl, rfl, rfl⟩

/-- C3 (amended): decoding a config account buffer shorter than 83 bytes
yields the catch-all `null` of `fetchConfig` — indistinguishable from
account-not-found — rather than a typed `TruncatedAccount` error, and a
buffer of 83 bytes or more (one byte short of the 84-byte minimum
well-formed length included) decodes successfully, reading `bump` as
JS `undefined` when the byte is missing. -/
theorem claim_C3_truncated_decode (raw : List Nat) :
    (raw.length < 83 → fetchConfigResult (some raw) = none)
    ∧ (83 ≤ raw.length → (decodeConfigAccount raw).isSome = true)
    ∧ fetchConfigResult none = none := by
  refine ⟨?_, ?_, rfl⟩
  · intro h
    simp only [fetchConfigResult, decodeConfigAccount]
    rw [if_neg]
    rw [List.length_drop]
    omega
  · intro h
    simp only [decodeConfigAccount]
    rw [if_pos (by rw [List.length_drop]; omega)]
    simp

/-- Witness for the amended C3 at concrete buffers. -/
theorem claim_C3_truncated_decode_witness :
    fetchConfigResult (some (List.replicate 10 0)) = none
    ∧ (decodeConfigAccount (List.replicate 83 0)).isSome = true :=
  ⟨(claim_C3_truncated_decode _).1 (by simp),
   (claim_C3_truncated_decode _).2.1 (by simp)⟩

/- ### Transfer orchestrator ordering -/

/-- C4: within one `buildShieldedTransfer` invocation the steps run
strictly in the order fetch-config, validate-not-paused, derive-ephemeral,
commit/encrypt, encode; when the fetched config is paused the call ends
with the state error right after validation, with no ephemeral-key,
commitment or encryption step performed. -/
theorem claim_C4_buildShieldedTransfer_order (cfg : Option ConfigAccount)
    (env : CryptoEnv) (params : ShieldedTransferParams) :
    (∀ config, cfg = some config → config.paused = true →
      buildShieldedTransfer cfg env params =
        (.error "Program is paused", [.fetchConfig, .validatePaused])
      ∧ BuildStep.deriveEphemeral ∉ (buildShieldedTransfer cfg env params).2
      ∧ BuildStep.createCommitment ∉ (buildShieldedTransfer cfg env params).2
      ∧ BuildStep.encryptAmount ∉ (buildShieldedTransfer cfg env params).2)
    ∧ (∀ config, cfg = some config → config.paused = false →
      (buildShieldedTransfer cfg env params).2 =
        [.fetchConfig, .validatePaused, .deriveEphemeral, .deriveSharedSecret,
         .createCommitment, .encryptAmount, .computeViewingKeyHash,
         .generateProof, .encode]) := by
  constructor
  · intro config hc hp
    subst hc
    simp [buildShieldedTransfer, hp]
  · intro config hc hp
    subst hc
    simp [buildShieldedTransfer, hp]

/-- Witness for C4: a concrete paused config stops the build after
validation. -/
theorem claim_C4_buildShieldedTransfer_order_witness :
    buildShieldedTransfer (some ⟨[], [], 0, true, 0, none⟩)
        ⟨[], [], [], [], [], [], [], [], []⟩ ⟨1, [], [], []⟩ =
      (.error "Program is paused", [.fetchConfig, .validatePaused])
    ∧ BuildStep.deriveEphemeral ∉
        (buildShieldedTransfer (some ⟨[], [], 0, true, 0, none⟩)
          ⟨[], [], [], [], [], [], [], [], []⟩ ⟨1, [], [], []⟩).2
    ∧ BuildStep.createCommitment ∉
        (buildShieldedTransfer (some ⟨[], [], 0, true, 0, none⟩)
          ⟨[], [], [], [], [], [], [], [], []⟩ ⟨1, [], [], []⟩).2
    ∧ BuildStep.encryptAmount ∉
        (buildShieldedTransfer (some ⟨[], [], 0, true, 0, none⟩)
          ⟨[], [], [], [], [], [], [], [], []⟩ ⟨1, [], [], []⟩).2 :=
  (claim_C4_buildShieldedTransfer_order _ _ _).1 ⟨[], [], 0, true, 0, none⟩ rfl rfl

/- ### Client factory singleton -/

/-- C10: `getSipPrivacyClient` is a memoizing singleton over the
module-level cache: the first call constructs the client from its own
arguments (defaulting the program id) and caches it; any later call
returns the cached client unchanged whatever arguments it receives; after
`resetSipPrivacyClient` the cache is `none` and the next call constructs
from its own arguments again. -/
theorem claim_C10_getSipPrivacyClient_singleton (c1 c2 : Nat)
    (p1 p2 : Option String) (cached : SipPrivacyClient) :
    (getSipPrivacyClient c1 p1 none).1 = ⟨c1, p1.getD SIP_PRIVACY_PROGRAM_ID⟩
    ∧ (getSipPrivacyClient c1 p1 none).2 = some (getSipPrivacyClient c1 p1 none).1
    ∧ getSipPrivacyClient c2 p2 (some cached) = (cached, some cached)
    ∧ (getSipPrivacyClient c2 p2 ((getSipPrivacyClient c1 p1 none).2)).1 =
        (getSipPrivacyClient c1 p1 none).1
    ∧ resetSipPrivacyClient ((getSipPrivacyClient c1 p1 none).2) = none
    ∧ (getSipPrivacyClient c2 p2
          (resetSipPrivacyClient ((getSipPrivacyClient c1 p1 none).2))).1 =
        ⟨c2, p2.getD SIP_PRIVACY_PROGRAM_ID⟩ := by
  simp [getSipPrivacyClient, resetSipPrivacyClient]

/- ### Scan idempotence -/

/-- The transaction hashes of the payments a scan produces are exactly
those of the owned announcements not already known. -/
theorem scan_newPayments_txHashes (known : List String) :
    ∀ (l : List Announcement) (r : ScanResult),
      ((l.foldl (scanStep known) r).newPayments).map PaymentRecord.txHash =
        r.newPayments.map PaymentRecord.txHash ++
          (l.filter (fun a => decide (a.txHash ∉ known) && a.isOurs)).map
            Announcement.txHash := by
  intro l
  induction l with
  | nil => intro r; simp
  | cons a l ih =>
    intro r
    by_cases hk : a.txHash ∈ known
    · simp [scanStep, hk, ih]
    · by_cases ho : a.isOurs
      · simp [scanStep, hk, ho, ih, mkScanPayment]
      · simp [scanStep, hk, ho, ih]

/-- When every owned announcement's transaction hash is already known,
the scan loop changes nothing but the scanned counter. -/
theorem scan_no_new (known : List String) :
    ∀ (l : List Announcement) (r : ScanResult),
      (∀ a ∈ l, a.isOurs = true → a.txHash ∈ known) →
      (l.foldl (scanStep known) r).found = r.found
        ∧ (l.foldl (scanStep known) r).newPayments = r.newPayments := by
  intro l
  induction l with
  | nil => intro r _; exact ⟨rfl, rfl⟩
  | cons a l ih =>
    intro r h
    have ha := h a (by simp)
    by_cases hk : a.txHash ∈ known
    · have hrest := ih { r with scanned := r.scanned + 1 }
        (fun b hb => h b (by simp [hb]))
      simpa [scanStep, hk] using hrest
    · have ho : a.isOurs = false := by
        by_contra hcon
        exact hk (ha (by simpa using hcon))
      have hrest := ih { r with scanned := r.scanned + 1 }
        (fun b hb => h b (by simp [hb]))
      simpa [scanStep, hk, ho] using hrest

/-- C9: scanning is idempotent over already-known transfers — for a fixed
announcement set, a second scan whose known set is seeded with the
transaction hashes of the first scan's resulting payments finds zero new
payments, because each announcement whose hash is known is skipped before
the ownership check. -/
theorem claim_C9_scan_idempotent (keys : StealthKeys) (known : List String)
    (announcements : List Announcement) (fromTimestamp : Option Nat) :
    (executeScanFlow (some keys)
        (known ++ ((executeScanFlow (some keys) known announcements
            fromTimestamp).2.newPayments).map PaymentRecord.txHash)
        announcements fromTimestamp).2.found = 0
    ∧ (executeScanFlow (some keys)
        (known ++ ((executeScanFlow (some keys) known announcements
            fromTimestamp).2.newPayments).map PaymentRecord.txHash)
        announcements fromTimestamp).2.newPayments = [] := by
  by_cases hF : (filterAnnouncements announcements fromTimestamp).length = 0
  · constructor <;> simp [executeScanFlow, hF]
  · have houter : ∀ K : List String,
        (executeScanFlow (some keys) K announcements fromTimestamp).2 =
          (filterAnnouncements announcements fromTimestamp).foldl
            (scanStep K) ⟨0, 0, [], []⟩ := by
      intro K
      simp [executeScanFlow, hF]
    simp only [houter]
    have hmap : (((filterAnnouncements announcements fromTimestamp).foldl
        (scanStep known) ⟨0, 0, [], []⟩).newPayments).map PaymentRecord.txHash =
        ((filterAnnouncements announcements fromTimestamp).filter
          (fun a => decide (a.txHash ∉ known) && a.isOurs)).map
            Announcement.txHash := by
      simpa using scan_newPayments_txHashes known
        (filterAnnouncements announcements fromTimestamp) ⟨0, 0, [], []⟩
    have hcov : ∀ a ∈ filterAnnouncements announcements fromTimestamp,
        a.isOurs = true →
        a.txHash ∈ known ++ (((filterAnnouncements announcements
          fromTimestamp).foldl (scanStep known)
            ⟨0, 0, [], []⟩).newPayments).map PaymentRecord.txHash := by
      intro a haF ho
      by_cases hk : a.txHash ∈ known
      · exact List.mem_append_left _ hk
      · refine List.mem_append_right _ ?_
        rw [hmap]
        exact List.mem_map.mpr
          ⟨a, List.mem_filter.mpr ⟨haF, by simp [hk, ho]⟩, rfl⟩
    have h2 := scan_no_new _ (filterAnnouncements announcements fromTimestamp)
      ⟨0, 0, [], []⟩ hcov
    exact ⟨by simpa using h2.1, by simpa using h2.2⟩

/- ### String helpers -/

theorem string_data_mk (l : List Char) : (String.mk l).data = l := rfl

theorem string_data_append (a b : String) :
    (a ++ b).data = a.data ++ b.data := by
  cases a
  cases b
  rfl

/-- A colon-free list is a single split segment. -/
theorem splitColon_no_colon (a : List Char) (h : ∀ c ∈ a, c ≠ ':') :
    splitColon a = [a] := by
  induction a with
  | nil => rfl
  | cons c rest ih =>
    have hc : c ≠ ':' := h c (by simp)
    have hr := ih (fun d hd => h d (by simp [hd]))
    simp [splitColon, hc, hr]

/-- Splitting at the first colon after a colon-free segment. -/
theorem splitColon_append (a b : List Char) (h : ∀ c ∈ a, c ≠ ':') :
    splitColon (a ++ ':' :: b) = a :: splitColon b := by
  induction a with
  | nil => simp [splitColon]
  | cons c rest ih =>
    have hc : c ≠ ':' := h c (by simp)
    have hr := ih (fun d hd => h d (by simp [hd]))
    simp [splitColon, hc, hr]

/-- `splitColon` never returns the empty list. -/
theorem splitColon_ne_nil (l : List Char) : splitColon l ≠ [] := by
  cases l with
  | nil => simp [splitColon]
  | cons c rest =>
    by_cases hc : c = ':'
    · simp [splitColon, hc]
    · simp only [splitColon, if_neg hc]
      rcases hsp : splitColon rest with _ | ⟨a, t⟩ <;> simp

/-- A string whose first four characters are `sip:` splits into `sip`
followed by the split of the remainder. -/
theorem splitColon_of_take_sip (l : List Char) (h : l.take 4 = "sip:".data) :
    splitColon l = "sip".data :: splitColon (l.drop 4) := by
  have hl : l = ['s', 'i', 'p'] ++ ':' :: l.drop 4 := by
    have h0 := (List.take_append_drop 4 l).symm
    rw [h] at h0
    exact h0
  calc splitColon l = splitColon (['s', 'i', 'p'] ++ ':' :: l.drop 4) := by
        rw [← hl]
    _ = ['s', 'i', 'p'] :: splitColon (l.drop 4) :=
        splitColon_append _ _ (by decide)

theorem ne_colon_of_not_mem {a : List Char} (h : ':' ∉ a) :
    ∀ c ∈ a, c ≠ ':' :=
  fun _ hc e => h (e ▸ hc)

/-- Hex-shaped keys contain no colon. -/
theorem colon_not_mem_of_isHexKey (l : List Char) (h : isHexKey l = true) :
    ':' ∉ l := by
  unfold isHexKey at h
  intro hmem
  by_cases hp : l.take 2 = ['0', 'x']
  · rw [if_pos hp] at h
    simp only [Bool.and_eq_true, List.all_eq_true] at h
    have hl : l = ['0', 'x'] ++ l.drop 2 := by
      have h0 := (List.take_append_drop 2 l).symm
      rw [hp] at h0
      exact h0
    rw [hl] at hmem
    rcases List.mem_append.mp hmem with h1 | h2
    · exact absurd h1 (by decide)
    · exact absurd (h.2 ':' h2) (by decide)
  · rw [if_neg hp] at h
    simp only [Bool.and_eq_true, List.all_eq_true] at h
    exact absurd (h.2 ':' hmem) (by decide)

/-- Supported chain tags contain no colon. -/
theorem colon_not_mem_of_supported (chain : List Char)
    (h : chain ∈ supportedChains) : ':' ∉ chain := by
  simp only [supportedChains, List.mem_cons, List.mem_singleton,
    List.not_mem_nil, or_false] at h
  rcases h with h | h | h <;> subst h <;> decide

/- ### Stealth meta-address parsing -/

/-- C5: `parseStealthMetaAddress` (a total function — it never throws)
returns `none` for every string that does not start with `sip:`, does not
split into exactly 4 colon-delimited segments, names a chain outside the
supported set, or has key segments that are not optionally `0x`-prefixed
hex; for strings passing all four checks it returns the parsed
meta-address.  Its acceptance agrees exactly with the source's
`validateStealthAddress`. -/
theorem claim_C5_parseStealthMetaAddress (s : String) :
    ((parseStealthMetaAddress s).isSome = (validateStealthAddress s).isValid)
    ∧ (s.data.take 4 ≠ "sip:".data → parseStealthMetaAddress s = none)
    ∧ ((splitColon s.data).length ≠ 4 → parseStealthMetaAddress s = none)
    ∧ (∀ chain sk vk, s.data.take 4 = "sip:".data →
        splitColon s.data = ["sip".data, chain, sk, vk] →
        chain ∉ supportedChains → parseStealthMetaAddress s = none)
    ∧ (∀ chain sk vk, s.data.take 4 = "sip:".data →
        splitColon s.data = ["sip".data, chain, sk, vk] →
        (isHexKey sk = false ∨ isHexKey vk = false) →
        parseStealthMetaAddress s = none)
    ∧ (∀ chain sk vk, s.data.take 4 = "sip:".data →
        splitColon s.data = ["sip".data, chain, sk, vk] →
        chain ∈ supportedChains → isHexKey sk = true → isHexKey vk = true →
        parseStealthMetaAddress s =
          some ⟨String.mk chain, String.mk sk, String.mk vk, none⟩) := by
  refine ⟨?_, ?_, ?_, ?_, ?_, ?_⟩
  · by_cases hpre : s.data.take 4 = "sip:".data
    · have hsp := splitColon_of_take_sip s.data hpre
      by_cases hlen : (splitColon (s.data.drop 4)).length = 3
      · rcases List.length_eq_three.mp hlen with ⟨c, k1, k2, he⟩
        by_cases hchain : c ∈ supportedChains
        · by_cases h1 : isHexKey k1
          · by_cases h2 : isHexKey k2
            · simp [parseStealthMetaAddress, validateStealthAddress, hpre,
                hsp, he, hchain, h1, h2]
            · simp [parseStealthMetaAddress, validateStealthAddress, hpre,
                hsp, he, hchain, h1, h2]
          · simp [parseStealthMetaAddress, validateStealthAddress, hpre,
              hsp, he, hchain, h1]
        · simp [parseStealthMetaAddress, validateStealthAddress, hpre,
            hsp, he, hchain]
      · have hlen4 : (splitColon s.data).length ≠ 4 := by
          rw [hsp]
          simp only [List.length_cons]
          omega
        simp [parseStealthMetaAddress, validateStealthAddress, hpre,
          hlen4, hlen]
    · simp [parseStealthMetaAddress, validateStealthAddress, hpre]
  · intro h
    simp [parseStealthMetaAddress, h]
  · intro h
    by_cases hpre : s.data.take 4 = "sip:".data
    · simp [parseStealthMetaAddress, hpre, h]
    · simp [parseStealthMetaAddress, hpre]
  · intro chain sk vk hpre hsp hchain
    simp [parseStealthMetaAddress, hpre, hsp, hchain]
  · intro chain sk vk hpre hsp hbad
    rcases hbad with hbad | hbad <;>
      simp [parseStealthMetaAddress, hpre, hsp, hbad]
  · intro chain sk vk hpre hsp hchain h1 h2
    simp [parseStealthMetaAddress, hpre, hsp, hchain, h1, h2]

/-- Witness for C5 at concrete strings. -/
theorem claim_C5_parseStealthMetaAddress_witness :
    (parseStealthMetaAddress "sip:solana:0x12:0x34").isSome =
        (validateStealthAddress "sip:solana:0x12:0x34").isValid
    ∧ parseStealthMetaAddress "nope" = none
    ∧ parseStealthMetaAddress "sip:solana:0x12:0x34" =
        some ⟨"solana", "0x12", "0x34", none⟩ := by
  refine ⟨(claim_C5_parseStealthMetaAddress _).1,
    (claim_C5_parseStealthMetaAddress "nope").2.1 (by decide), ?_⟩
  exact (claim_C5_parseStealthMetaAddress "sip:solana:0x12:0x34").2.2.2.2.2
    "solana".data "0x12".data "0x34".data
    (by decide) (by decide) (by decide) (by decide) (by decide)

/-- C6: for every valid meta-address, `formatStealthMetaAddress` produces
exactly `sip:<chain>:<spendingKeyHex>:<viewingKeyHex>` — never including
the optional label — and `parseStealthMetaAddress` maps that string back
to the meta-address. -/
theorem claim_C6_format_parse_roundtrip (m : StealthMetaAddress)
    (hc : m.chain.data ∈ supportedChains)
    (hs : isHexKey m.spendingKey.data = true)
    (hv : isHexKey m.viewingKey.data = true) :
    (∀ lbl : Option String,
      formatStealthMetaAddress ⟨m.chain, m.spendingKey, m.viewingKey, lbl⟩ =
        formatStealthMetaAddress m)
    ∧ (m.label = none →
        parseStealthMetaAddress (formatStealthMetaAddress m) = some m) := by
  obtain ⟨⟨lc⟩, ⟨lsk⟩, ⟨lvk⟩, lbl⟩ := m
  simp only at hc hs hv
  constructor
  · intro lbl2
    rfl
  · intro hlbl
    have hlbl' : lbl = none := hlbl
    subst hlbl'
    have hdata : (formatStealthMetaAddress ⟨⟨lc⟩, ⟨lsk⟩, ⟨lvk⟩, none⟩).data =
        ['s', 'i', 'p'] ++ ':' :: (lc ++ ':' :: (lsk ++ ':' :: lvk)) := by
      show (("sip:" ++ ⟨lc⟩ ++ ":" ++ ⟨lsk⟩ ++ ":" ++ ⟨lvk⟩ : String)).data = _
      simp only [string_data_append, string_data_mk]
      simp [List.append_assoc]
    have hpre : (formatStealthMetaAddress ⟨⟨lc⟩, ⟨lsk⟩, ⟨lvk⟩, none⟩).data.take 4 =
        "sip:".data := by
      rw [hdata]
      rfl
    have hsplit : splitColon (formatStealthMetaAddress
        ⟨⟨lc⟩, ⟨lsk⟩, ⟨lvk⟩, none⟩).data = ["sip".data, lc, lsk, lvk] := by
      rw [hdata,
        splitColon_append _ _ (by decide),
        splitColon_append _ _
          (ne_colon_of_not_mem (colon_not_mem_of_supported lc hc)),
        splitColon_append _ _
          (ne_colon_of_not_mem (colon_not_mem_of_isHexKey lsk hs)),
        splitColon_no_colon _
          (ne_colon_of_not_mem (colon_not_mem_of_isHexKey lvk hv))]
    simp [parseStealthMetaAddress, hpre, hsplit, hc, hs, hv]

/-- Witness for C6 at a concrete meta-address. -/
theorem claim_C6_format_parse_roundtrip_witness :
    formatStealthMetaAddress ⟨"solana", "0x1234", "0x5678", some "My Wallet"⟩ =
      formatStealthMetaAddress ⟨"solana", "0x1234", "0x5678", none⟩
    ∧ parseStealthMetaAddress (formatStealthMetaAddress
        ⟨"solana", "0x1234", "0x5678", none⟩) =
      some ⟨"solana", "0x1234", "0x5678", none⟩ := by
  have h := claim_C6_format_parse_roundtrip ⟨"solana", "0x1234", "0x5678", none⟩
    (by decide) (by decide) (by decide)
  exact ⟨h.1 (some "My Wallet"), h.2 rfl⟩

/- ### Hex encoding primitives -/

/-- Decoding a nibble's hex character recovers the nibble. -/
theorem hexValOf_hexCharOf : ∀ d : Fin 16, hexValOf (hexCharOf d.val) = some d := by
  decide

/-- Hex characters are never `x` (so an encoded string is never mistaken
for `0x`-prefixed input). -/
theorem hexCharOf_ne_x : ∀ d : Fin 16, hexCharOf d.val ≠ 'x' := by
  decide

/-- Every `hexCharOf` output is one of the sixteen lowercase digits. -/
theorem hexCharOf_mem (n : Nat) : hexCharOf n ∈ hexDigitChars := by
  by_cases h : n < 16
  · interval_cases n <;> decide
  · unfold hexCharOf
    rw [List.getD_eq_default]
    · decide
    · simp only [hexDigitChars]
      simp
      omega

/-- Decoding the hex expansion of a byte list recovers the list. -/
theorem hexPairsToBytes_encode (b : List (Fin 256)) :
    hexPairsToBytes ((b.map byteToHexChars).flatten) = some b := by
  induction b with
  | nil => rfl
  | cons x rest ih =>
    have hhi := hexValOf_hexCharOf ⟨x.val / 16, by have := x.isLt; omega⟩
    have hlo := hexValOf_hexCharOf ⟨x.val % 16, by have := x.isLt; omega⟩
    simp only [List.map_cons, List.flatten_cons, byteToHexChars,
      List.cons_append, List.nil_append]
    rw [hexPairsToBytes]
    rw [hhi, hlo, ih]
    simp only [Option.pure_def, Option.bind_eq_bind, Option.some_bind,
      Option.some.injEq, List.cons.injEq, and_true, true_and]
    apply Fin.ext
    show 16 * (x.val / 16) + x.val % 16 = x.val
    omega

/-- The hex expansion of a byte list has twice its length. -/
theorem flatten_hex_length (b : List (Fin 256)) :
    ((b.map byteToHexChars).flatten).length = 2 * b.length := by
  induction b with
  | nil => rfl
  | cons x rest ih =>
    simp [byteToHexChars, ih]
    omega

/-- C7: `hexToBytes` inverts `bytesToHex` on every byte sequence
(including the empty one); `bytesToHex` maps each byte to two hex
characters drawn from the lowercase alphabet, with no separators, and
maps empty input to the empty string. -/
theorem claim_C7_hex_roundtrip (b : List (Fin 256)) :
    hexToBytes (bytesToHex b) = some b
    ∧ (bytesToHex b).data.length = 2 * b.length
    ∧ bytesToHex [] = ""
    ∧ ∀ c ∈ (bytesToHex b).data, c ∈ hexDigitChars := by
  refine ⟨?_, ?_, rfl, ?_⟩
  · have hmain := hexPairsToBytes_encode b
    cases b with
    | nil => rfl
    | cons x rest =>
      have hx : hexCharOf (x.val % 16) ≠ 'x' :=
        hexCharOf_ne_x ⟨x.val % 16, by have := x.isLt; omega⟩
      simp only [bytesToHex, hexToBytes, string_data_mk, List.map_cons,
        List.flatten_cons, byteToHexChars, List.cons_append,
        List.nil_append] at hmain ⊢
      rw [if_neg (by simp [hx])]
      exact hmain
  · simp only [bytesToHex, string_data_mk]
    exact flatten_hex_length b
  · intro c hc
    simp only [bytesToHex, string_data_mk] at hc
    rcases List.mem_flatten.mp hc with ⟨seg, hseg, hcseg⟩
    rcases List.mem_map.mp hseg with ⟨y, _, hy⟩
    subst hy
    simp only [byteToHexChars, List.mem_cons, List.not_mem_nil, or_false] at hcseg
    rcases hcseg with h | h <;> subst h <;> exact hexCharOf_mem _

/-- Witness for C7 at a concrete byte sequence. -/
theorem claim_C7_hex_roundtrip_witness :
    hexToBytes (bytesToHex [(171 : Fin 256), 0, 255]) = some [171, 0, 255]
    ∧ (bytesToHex [(171 : Fin 256), 0, 255]).data.length = 2 * 3
    ∧ 'a' ∈ (bytesToHex [(171 : Fin 256), 0, 255]).data
    ∧ 'a' ∈ hexDigitChars :=
  ⟨(claim_C7_hex_roundtrip [171, 0, 255]).1,
   (claim_C7_hex_roundtrip [171, 0, 255]).2.1,
   by decide,
   (claim_C7_hex_roundtrip [171, 0, 255]).2.2.2 'a' (by decide)⟩

/- ### Amount validation -/

/-- `dropWhile` is empty or starts with an element failing the predicate. -/
theorem dropWhile_nil_or_head_false (p : Char → Bool) (l : List Char) :
    l.dropWhile p = [] ∨ ∃ c t, l.dropWhile p = c :: t ∧ p c = false := by
  induction l with
  | nil => left; rfl
  | cons c t ih =>
    by_cases hc : p c
    · simpa [List.dropWhile_cons, hc] using ih
    · right
      exact ⟨c, t, by simp [List.dropWhile_cons, hc], by simpa using hc⟩

/-- An input that still has a character after leading-whitespace removal
does not trim to the empty string. -/
theorem jsTrim_eq_nil (l : List Char) (h : jsTrim l = []) :
    l.dropWhile isWsChar = [] := by
  rcases dropWhile_nil_or_head_false isWsChar l with hd | ⟨c, t, hd, hc⟩
  · exact hd
  · exfalso
    unfold jsTrim at h
    rw [hd] at h
    have h2 : (c :: t).reverse.dropWhile isWsChar = [] := by
      simpa using h
    have h3 := List.dropWhile_eq_nil_iff.mp h2
    have h4 := h3 c (by simp)
    rw [hc] at h4
    exact absurd h4 (by simp)

/-- A successful `parseFloat` means the input was not pure whitespace. -/
theorem parseFloatQ_some_dropWhile_ne (a : String) (q : ℚ)
    (h : parseFloatQ a = some q) : a.data.dropWhile isWsChar ≠ [] := by
  intro hnil
  simp [parseFloatQ, hnil] at h

/-- Evaluation of `validateAmount` once the amount parses: the source's
check order positive → within balance → above minimum. -/
theorem validateAmount_eval (a : String) (bal q : ℚ)
    (hp : parseFloatQ a = some q) :
    validateAmount a bal =
      if q ≤ 0 then ⟨false, some "Amount must be greater than 0"⟩
      else if bal < q then ⟨false, some "Insufficient balance"⟩
      else if q < 1 / 1000 then ⟨false, some "Minimum amount is 0.001 SOL"⟩
      else ⟨true, none⟩ := by
  have hne := parseFloatQ_some_dropWhile_ne a q hp
  have htrim : (jsTrim a.data).isEmpty = false := by
    rcases h : jsTrim a.data with _ | _
    · exact absurd (jsTrim_eq_nil _ h) hne
    · rfl
  simp [validateAmount, htrim, hp]

/-- The spec's below-minimum example inputs, evaluated. -/
theorem parseFloatQ_eval_0005 : parseFloatQ "0.0005" = some (5 / 10000) := by
  have h : parseFloatQ "0.0005" =
      some ((1 : ℚ) * ((digitsToNat [] : ℚ) +
        (digitsToNat ['0', '0', '0', '5'] : ℚ) / 10 ^ (4 : Nat))) := rfl
  rw [h, show digitsToNat [] = 0 from rfl,
    show digitsToNat ['0', '0', '0', '5'] = 5 from rfl]
  norm_num

theorem parseFloatQ_eval_0001 : parseFloatQ "0.0001" = some (1 / 10000) := by
  have h : parseFloatQ "0.0001" =
      some ((1 : ℚ) * ((digitsToNat [] : ℚ) +
        (digitsToNat ['0', '0', '0', '1'] : ℚ) / 10 ^ (4 : Nat))) := rfl
  rw [h, show digitsToNat [] = 0 from rfl,
    show digitsToNat ['0', '0', '0', '1'] = 1 from rfl]
  norm_num

/-- C8 counterexample: the request amount 0.0005 is below the documented
0.001 minimum, yet with balance 0.0001 `validateAmount` reports
`Insufficient balance`, not the minimum-amount error: the balance check
runs before the minimum check. -/
theorem claim_C8_counterexample :
    parseFloatQ "0.0005" = some (5 / 10000)
    ∧ ((5 : ℚ) / 10000) < 1 / 1000
    ∧ validateAmount "0.0005" (1 / 10000) =
        ⟨false, some "Insufficient balance"⟩
    ∧ validateAmount "0.0005" (1 / 10000) ≠
        ⟨false, some "Minimum amount is 0.001 SOL"⟩ := by
  have he := validateAmount_eval "0.0005" (1 / 10000) (5 / 10000)
    parseFloatQ_eval_0005
  refine ⟨parseFloatQ_eval_0005, by norm_num, ?_, ?_⟩
  · rw [he, if_neg (by norm_num), if_pos (by norm_num)]
  · rw [he, if_neg (by norm_num), if_pos (by norm_num)]
    decide

/-- C8 (amended): a below-minimum amount fails validation before any
submission step — with the specific error `Minimum amount is 0.001 SOL`
whenever the amount is strictly positive and within balance — and
amounts at or above 0.001 and within balance are accepted.  In the send
flow no submit stage is reached for any below-minimum amount. -/
theorem claim_C8_minimum_amount (a : String) (q bal : ℚ)
    (hp : parseFloatQ a = some q) :
    (0 < q → q ≤ bal → q < 1 / 1000 →
      validateAmount a bal = ⟨false, some "Minimum amount is 0.001 SOL"⟩)
    ∧ (1 / 1000 ≤ q → q ≤ bal → validateAmount a bal = ⟨true, none⟩)
    ∧ (q < 1 / 1000 → ∀ recipient : String,
        (sendFlow true recipient a).success = false
        ∧ SendStep.submit ∉ (sendFlow true recipient a).steps) := by
  have heval := validateAmount_eval a bal q hp
  have heval100 := validateAmount_eval a 100 q hp
  refine ⟨?_, ?_, ?_⟩
  · intro h0 hbal hmin
    rw [heval, if_neg (by linarith), if_neg (by linarith), if_pos hmin]
  · intro hmin hbal
    rw [heval, if_neg (by linarith), if_neg (by linarith),
      if_neg (by linarith)]
  · intro hmin recipient
    have hinv : (validateAmount a 100).isValid = false := by
      rw [heval100]
      by_cases h0 : q ≤ 0
      · rw [if_pos h0]
      · have hb : ¬ ((100 : ℚ) < q) := by
          have h1 : (1 : ℚ) / 1000 < 100 := by norm_num
          linarith
        rw [if_neg h0, if_neg hb, if_pos hmin]
    by_cases haddr : (validateAddress recipient).isValid
    · constructor <;> simp [sendFlow, haddr, hinv]
    · constructor <;> simp [sendFlow, haddr]

/-- Witness for the amended C8 at the spec's 0.0001-SOL example. -/
theorem claim_C8_minimum_amount_witness :
    validateAmount "0.0001" 100 = ⟨false, some "Minimum amount is 0.001 SOL"⟩
    ∧ (sendFlow true "11111111111111111111111111111111" "0.0001").success = false
    ∧ SendStep.submit ∉
        (sendFlow true "11111111111111111111111111111111" "0.0001").steps := by
  refine ⟨(claim_C8_minimum_amount "0.0001" (1 / 10000) 100
      parseFloatQ_eval_0001).1 (by norm_num) (by norm_num) (by norm_num), ?_, ?_⟩
  · exact ((claim_C8_minimum_amount "0.0001" (1 / 10000) 100
      parseFloatQ_eval_0001).2.2 (by norm_num) "11111111111111111111111111111111").1
  · exact ((claim_C8_minimum_amount "0.0001" (1 / 10000) 100
      parseFloatQ_eval_0001).2.2 (by norm_num) "11111111111111111111111111111111").2

end SipMobile
